import Mathlib

/-!
Verification of the punch-interval reconciliation engine of
`attendance_processor.py` (class `AttendanceProcessor`).

The Python code is shallowly embedded: wall-clock times (`datetime.time`
values carrying hour/minute, as produced by `parse_time`) become the
`WallTime` structure, minutes are `Int` (Python integers), and every
operation of the engine is translated definition-by-definition from the
source.  Durations and deductions are computed in `Int` because the
intermediate values (`duration -= break_mins`) can go negative before the
final clamp.
-/

/-- A time-of-day value as stored in a `datetime.time` produced by
`parse_time` (format `%H:%M`): an hour `0..23` and a minute `0..59`,
no seconds.  The validity bounds are part of the structure, mirroring the
invariant of `datetime.time`. -/
structure WallTime where
  hour : Nat
  minute : Nat
  hour_lt : hour < 24
  minute_lt : minute < 60

instance : DecidableEq WallTime := fun a b =>
  if h : a.hour = b.hour ∧ a.minute = b.minute then
    isTrue (by cases a; cases b; simp_all)
  else
    isFalse (by cases a; cases b; simp_all)

/-- Convenience constructor for concrete wall times. -/
def wt (h m : Nat) (hh : h < 24 := by decide) (hm : m < 60 := by decide) : WallTime :=
  ⟨h, m, hh, hm⟩

/-- `AttendanceProcessor.time_to_minutes`: minutes since midnight,
`t.hour * 60 + t.minute`.  (The `None -> 0` branch of the Python code is
unreachable here: punches that fail to parse are dropped by
`parse_punch_records` before reaching the engine, so `WallTime` is total.) -/
def time_to_minutes (t : WallTime) : Int :=
  (t.hour : Int) * 60 + (t.minute : Int)

theorem time_to_minutes_nonneg (t : WallTime) : 0 ≤ time_to_minutes t := by
  unfold time_to_minutes
  have := t.hour_lt
  have := t.minute_lt
  omega

theorem time_to_minutes_lt (t : WallTime) : time_to_minutes t < 1440 := by
  unfold time_to_minutes
  have := t.hour_lt
  have := t.minute_lt
  omega

theorem time_to_minutes_injective {a b : WallTime}
    (h : time_to_minutes a = time_to_minutes b) : a = b := by
  cases a with
  | mk ah am ahh ahm =>
    cases b with
    | mk bh bm bhh bhm =>
      unfold time_to_minutes at h
      simp only at h
      have hh : ah = bh ∧ am = bm := by omega
      simp [hh.1, hh.2]

/-- `CATEGORY_RULES` entries: per-category policy knobs.
(`consider_late_going` and `punch_end_after` are read nowhere in the
engine and are omitted.) -/
structure CategoryRules where
  grace_late_coming : Int
  grace_early_going : Int
  deduct_break_hours : Bool
  allow_midnight_shift : Bool

/-- `CATEGORY_RULES['Cont Worked']`. -/
def contWorked : CategoryRules :=
  { grace_late_coming := 10
    grace_early_going := 10
    deduct_break_hours := true
    allow_midnight_shift := true }

/-- One entry of the `SHIFTS` table. -/
structure ShiftConfig where
  begin_time : WallTime
  end_time : WallTime
  breaks : List (WallTime × WallTime)

/-- `SHIFTS['Shift']`: 09:00-20:30 with four break windows. -/
def shiftShift : ShiftConfig :=
  { begin_time := wt 9 0
    end_time := wt 20 30
    breaks := [(wt 10 45, wt 11 0), (wt 13 0, wt 13 30),
               (wt 15 45, wt 16 0), (wt 20 30, wt 21 0)] }

/-- `AttendanceProcessor.calculate_duration`.  The Python body reads
`allow_midnight` from `CATEGORY_RULES['Cont Worked']['allow_midnight_shift']`
(default `True`); here the looked-up value is the `allow_midnight`
parameter, and engine callers pass `contWorked.allow_midnight_shift`. -/
def calculate_duration (allow_midnight : Bool) (entry_time exit_time : WallTime) : Int :=
  let entry_minutes := time_to_minutes entry_time
  let exit_minutes := time_to_minutes exit_time
  if exit_minutes ≥ entry_minutes then
    exit_minutes - entry_minutes
  else
    if allow_midnight then
      24 * 60 - entry_minutes + exit_minutes
    else
      0

/-- The unwrapped exit minute used by `deduct_breaks` (and
`apply_grace_time`): `exit_mins + 24*60` when `exit_mins < entry_mins`. -/
def normExitM (entry_time exit_time : WallTime) : Int :=
  let entry_mins := time_to_minutes entry_time
  let exit_mins := time_to_minutes exit_time
  if exit_mins < entry_mins then exit_mins + 24 * 60 else exit_mins

/-- The contribution of one `(break_start, break_end)` window inside the
loop of `AttendanceProcessor.deduct_breaks`, on minute values. -/
def deductOne (entry_mins exit_mins break_start_mins break_end_mins : Int) : Int :=
  if break_start_mins ≥ entry_mins ∧ break_end_mins ≤ exit_mins then
    break_end_mins - break_start_mins
  else
    if break_start_mins < exit_mins ∧ break_end_mins > entry_mins then
      let overlap_start := max break_start_mins entry_mins
      let overlap_end := min break_end_mins exit_mins
      if overlap_end > overlap_start then overlap_end - overlap_start else 0
    else
      0

/-- The summation loop of `deduct_breaks` over the break list, on an
already-normalized `[entry_mins, exit_mins]` window. -/
def deductMins (entry_mins exit_mins : Int) : List (WallTime × WallTime) → Int
  | [] => 0
  | b :: rest =>
      deductOne entry_mins exit_mins (time_to_minutes b.1) (time_to_minutes b.2) +
        deductMins entry_mins exit_mins rest

/-- `AttendanceProcessor.deduct_breaks`: normalize the exit for day
spanning, then sum the per-window contributions. -/
def deduct_breaks (entry_time exit_time : WallTime)
    (breaks : List (WallTime × WallTime)) : Int :=
  deductMins (time_to_minutes entry_time) (normExitM entry_time exit_time) breaks

/-- The late-coming snap inside `apply_grace_time`: `entry_mins` becomes
`shift_start_mins` when the arrival is late by at most `grace_late`. -/
def snapEntry (entry_mins shift_start_mins grace_late : Int) : Int :=
  if entry_mins > shift_start_mins ∧ entry_mins - shift_start_mins ≤ grace_late then
    shift_start_mins
  else
    entry_mins

/-- The early-going snap inside `apply_grace_time`: `exit_mins` becomes
`shift_end_mins` when the departure is early by at most `grace_early`. -/
def snapExit (exit_mins shift_end_mins grace_early : Int) : Int :=
  if exit_mins < shift_end_mins ∧ shift_end_mins - exit_mins ≤ grace_early then
    shift_end_mins
  else
    exit_mins

/-- The unwrapped shift-end minute used by `apply_grace_time`:
`shift_end_mins + 24*60` when `shift_end_mins < shift_start_mins`. -/
def normShiftEndM (shift_config : ShiftConfig) : Int :=
  let shift_start_mins := time_to_minutes shift_config.begin_time
  let shift_end_mins := time_to_minutes shift_config.end_time
  if shift_end_mins < shift_start_mins then shift_end_mins + 24 * 60 else shift_end_mins

/-- `AttendanceProcessor.apply_grace_time`: normalize exit and shift end
for day spanning, snap the entry for late coming and the exit for early
going, and return `max(0, exit_mins - entry_mins)`. -/
def apply_grace_time (entry_time exit_time : WallTime)
    (shift_config : ShiftConfig) (rules : CategoryRules) : Int :=
  max 0 (snapExit (normExitM entry_time exit_time) (normShiftEndM shift_config)
           rules.grace_early_going -
         snapEntry (time_to_minutes entry_time) (time_to_minutes shift_config.begin_time)
           rules.grace_late_coming)

/-- The duplicate-removal loop shared by `calculate_working_hours`,
`calculate_working_hours_total_span` and `analyze_punch_pairs`:
keep only the first occurrence of each distinct punch value. -/
def dedupGo (seen : List WallTime) : List WallTime → List WallTime
  | [] => []
  | p :: rest =>
      if seen.contains p then dedupGo seen rest
      else p :: dedupGo (p :: seen) rest

/-- Deduplicated punch list (first occurrences, original order). -/
def dedupPunches (punches : List WallTime) : List WallTime :=
  dedupGo [] punches

/-- The `(entry, exit)` pairs formed by `for i in range(0, len - 1, 2)`:
positions (0,1), (2,3), …; a trailing element without a partner is
dropped by the loop bound. -/
def pairsOf : List WallTime → List (WallTime × WallTime)
  | a :: b :: rest => (a, b) :: pairsOf rest
  | _ => []

/-- The Day-1 reference point of `calculate_working_hours`: 09:00. -/
def referenceTime : WallTime := wt 9 0

/-- The net minutes one `(entry, exit)` pair contributes inside the loop
of `calculate_working_hours` (lines 259-285): Day-1 entries before 09:00
are clamped to 09:00, the raw duration is computed, breaks are deducted,
and when the grace-adjusted span is positive it replaces the duration
with breaks re-deducted (the re-deduction passes the original
`entry`/`exit_time` arguments, exactly as the source does). -/
def pairNet (use_reference : Bool) (p : WallTime × WallTime) : Int :=
  let entry :=
    if use_reference then
      if time_to_minutes p.1 < time_to_minutes referenceTime then referenceTime else p.1
    else p.1
  let exit_time := p.2
  let duration := calculate_duration contWorked.allow_midnight_shift entry exit_time
  let duration1 :=
    if contWorked.deduct_break_hours then
      duration - deduct_breaks entry exit_time shiftShift.breaks
    else duration
  let grace_adjusted := apply_grace_time entry exit_time shiftShift contWorked
  if grace_adjusted > 0 then
    if contWorked.deduct_break_hours then
      grace_adjusted - deduct_breaks entry exit_time shiftShift.breaks
    else grace_adjusted
  else duration1

/-- The accumulation `if duration > 0: total_minutes += duration` over the
pair list of `calculate_working_hours`. -/
def sumPosNet (use_reference : Bool) : List (WallTime × WallTime) → Int
  | [] => 0
  | p :: rest =>
      (if pairNet use_reference p > 0 then pairNet use_reference p else 0) +
        sumPosNet use_reference rest

/-- `AttendanceProcessor.calculate_working_hours`.  The `day` string
parameter becomes `use_reference = (day == 'day1')`. -/
def calculate_working_hours (punches : List WallTime) (use_reference : Bool) : Int :=
  if punches.length < 2 then 0
  else
    let deduplicated := dedupPunches punches
    if deduplicated.length < 2 then 0
    else max 0 (sumPosNet use_reference (pairsOf deduplicated))

/-- One row of the `pairs` list built by `analyze_punch_pairs`.
(`final_duration_hrs`, a rounded floating-point echo of
`final_duration_mins`, is display-only and not modelled.) -/
structure PairInfo where
  pair_num : Nat
  entry : WallTime
  exit : WallTime
  raw_duration_mins : Int
  breaks_deducted_mins : Int
  final_duration_mins : Int

/-- The `unpaired` record of `analyze_punch_pairs`. -/
structure UnpairedInfo where
  punch : WallTime
  position : Nat
  likely_type : String
  status : String
  unaccounted_mins : String

/-- The result dictionary of `analyze_punch_pairs` (`total_hours`,
a rounded floating-point echo of `total_minutes`, and the `breaks_config`
echo of the input are display-only and not modelled). -/
structure PunchAnalysis where
  total_punches : Nat
  complete_pairs : Nat
  pairs : List PairInfo
  unpaired : Option UnpairedInfo
  total_minutes : Int

/-- The pair-building loop of `analyze_punch_pairs` (lines 372-388),
with `k` complete pairs already emitted (`pair_num = i // 2 + 1`). -/
def buildPairs (breaks : List (WallTime × WallTime)) (k : Nat) :
    List WallTime → List PairInfo
  | a :: b :: rest =>
      let duration := calculate_duration contWorked.allow_midnight_shift a b
      let break_mins := deduct_breaks a b breaks
      { pair_num := k + 1
        entry := a
        exit := b
        raw_duration_mins := duration
        breaks_deducted_mins := break_mins
        final_duration_mins := duration - break_mins } :: buildPairs breaks (k + 1) rest
  | _ => []

/-- The accumulation `if final_duration > 0: total_minutes += final_duration`
of `analyze_punch_pairs`. -/
def sumPosFinals : List PairInfo → Int
  | [] => 0
  | pi :: rest =>
      (if pi.final_duration_mins > 0 then pi.final_duration_mins else 0) + sumPosFinals rest

/-- `AttendanceProcessor.analyze_punch_pairs`.  `custom_breaks = none`
selects `SHIFTS['Shift']['breaks']`, as in the source. -/
def analyze_punch_pairs (punches : List WallTime)
    (custom_breaks : Option (List (WallTime × WallTime))) : PunchAnalysis :=
  if punches.isEmpty then
    { total_punches := 0, complete_pairs := 0, pairs := [], unpaired := none, total_minutes := 0 }
  else
    let deduplicated := dedupPunches punches
    let breaks := custom_breaks.getD shiftShift.breaks
    let pairs := buildPairs breaks 0 deduplicated
    let unpaired : Option UnpairedInfo :=
      if deduplicated.length % 2 = 1 then
        deduplicated.getLast?.map fun p =>
          { punch := p
            position := deduplicated.length
            likely_type :=
              if pairs.length % 2 = 0 then "Clock IN (entry)" else "Clock OUT (exit)"
            status := "Missing exit/entry punch"
            unaccounted_mins := "Unknown - cannot calculate without exit/entry" }
      else none
    { total_punches := deduplicated.length
      complete_pairs := pairs.length
      pairs := pairs
      unpaired := unpaired
      total_minutes := sumPosFinals pairs }

/-- The cross-midnight flag dictionary returned by
`detect_cross_midnight_shift`. -/
structure CrossMidnightInfo where
  early_morning_punches : List WallTime
  is_cross_midnight : Bool
  shifted_to_day1 : Bool

/-- The `midnight_boundary` constant of `detect_cross_midnight_shift`:
`time(7, 15)`. -/
def midnightBoundary : WallTime := wt 7 15

/-- `AttendanceProcessor.detect_cross_midnight_shift`: when both days have
punches, Day-2 punches strictly before the boundary are appended to Day 1
(in order) and removed from Day 2, and a flag is returned when any moved. -/
def detect_cross_midnight_shift (day1_punches day2_punches : List WallTime) :
    List WallTime × List WallTime × Option CrossMidnightInfo :=
  if day1_punches.isEmpty || day2_punches.isEmpty then
    (day1_punches, day2_punches, none)
  else
    let boundary_mins := time_to_minutes midnightBoundary
    let day2_early_punches :=
      day2_punches.filter fun p => time_to_minutes p < boundary_mins
    let day2_remaining_punches :=
      day2_punches.filter fun p => ¬ time_to_minutes p < boundary_mins
    if day2_early_punches.isEmpty then
      (day1_punches, day2_punches, none)
    else
      (day1_punches ++ day2_early_punches, day2_remaining_punches,
        some { early_morning_punches := day2_early_punches
               is_cross_midnight := true
               shifted_to_day1 := true })

/-- Numeric value of an ASCII digit character. -/
def digitVal (c : Char) : Nat := c.toNat - 48

/-- Build a `datetime.time` value when the parsed fields are in range. -/
def mkTime (h m : Nat) : Option WallTime :=
  if hh : h < 24 then
    if hm : m < 60 then some ⟨h, m, hh, hm⟩ else none
  else none

/-- `AttendanceProcessor.parse_time`: `strptime(time_str.strip(), "%H:%M")`
returning `none` on failure.  `strptime` accepts one or two (ASCII) digits
for `%H` (value 0-23) and for `%M` (value 0-59) separated by a literal
colon and nothing else; the range restrictions of its field patterns
(`2[0-3]|[0-1]\d|\d` and `[0-5]\d|\d`) coincide with the `mkTime` bound
checks on digit strings of these shapes. -/
def parseTime (s : String) : Option WallTime :=
  match s.trim.toList with
  | [a, c, b] =>
      if c = ':' ∧ a.isDigit ∧ b.isDigit then mkTime (digitVal a) (digitVal b)
      else none
  | [a, b, c, d] =>
      if b = ':' ∧ a.isDigit ∧ c.isDigit ∧ d.isDigit then
        mkTime (digitVal a) (digitVal c * 10 + digitVal d)
      else
        if c = ':' ∧ a.isDigit ∧ b.isDigit ∧ d.isDigit then
          mkTime (digitVal a * 10 + digitVal b) (digitVal d)
        else none
  | [a, b, c, d, e] =>
      if c = ':' ∧ a.isDigit ∧ b.isDigit ∧ d.isDigit ∧ e.isDigit then
        mkTime (digitVal a * 10 + digitVal b) (digitVal d * 10 + digitVal e)
      else none
  | _ => none

/-- The comma-separated token list `break_periods` of `parse_breaks`
(and, identically, the token list of `parse_punch_records`): split on
commas, strip, drop empties.  The guard mirrors the early
`return []` of the source for blank input. -/
def breakTokens (breaks_str : String) : List String :=
  if breaks_str.trim = "" then []
  else ((breaks_str.splitOn ",").map String.trim).filter fun t => t ≠ ""

/-- The token loop of `parse_breaks`: each token must contain a dash,
split into exactly two fields, and both fields must parse as times;
otherwise the whole parse fails with a descriptive `ValueError`. -/
def parseBreaksGo : List String → Except String (List (WallTime × WallTime))
  | [] => .ok []
  | period :: rest =>
      if '-' ∈ period.toList then
        match period.splitOn "-" with
        | [p1, p2] =>
            match parseTime p1.trim, parseTime p2.trim with
            | some start_time, some end_time =>
                (parseBreaksGo rest).map fun l => (start_time, end_time) :: l
            | _, _ => .error ("Invalid time format in break: " ++ period)
        | _ => .error ("Invalid break format: " ++ period ++ ". Expected HH:MM-HH:MM")
      else
        .error ("Invalid break format: " ++ period ++ ". Expected HH:MM-HH:MM")

/-- `AttendanceProcessor.parse_breaks`: `ValueError` becomes `.error`. -/
def parse_breaks (breaks_str : String) : Except String (List (WallTime × WallTime)) :=
  if breaks_str.trim = "" then .ok []
  else parseBreaksGo (breakTokens breaks_str)

/-- A break token is well formed when it contains a dash, splits on the
dash into exactly two fields, and both fields parse as `HH:MM` times —
the complement of the three malformation conditions `parse_breaks`
rejects. -/
def wellFormedTok (t : String) : Prop :=
  '-' ∈ t.toList ∧
    match t.splitOn "-" with
    | [p1, p2] => (parseTime p1.trim).isSome ∧ (parseTime p2.trim).isSome
    | _ => False

/-- The `(start, end)` pair a well-formed token denotes (`wt 0 0` is a
dummy never reached on well-formed tokens). -/
def tokenPair (t : String) : WallTime × WallTime :=
  match t.splitOn "-" with
  | [p1, p2] => ((parseTime p1.trim).getD (wt 0 0), (parseTime p2.trim).getD (wt 0 0))
  | _ => (wt 0 0, wt 0 0)

/-! ## Helper lemmas -/

/-- The two-branch per-window computation of `deduct_breaks` coincides
with the standard interval-intersection formula whenever the window is
ordered (`start ≤ end`). -/
theorem deductOne_eq_overlap (e x bs be : Int) (h : bs ≤ be) :
    deductOne e x bs be = max 0 (min be x - max bs e) := by
  simp only [deductOne]
  split_ifs <;> omega

theorem normExitM_ge_entry (entry_time exit_time : WallTime) :
    time_to_minutes entry_time ≤ normExitM entry_time exit_time := by
  have h1 := time_to_minutes_lt entry_time
  have h2 := time_to_minutes_nonneg exit_time
  simp only [normExitM]
  split_ifs <;> omega

/-- Induction principle matching the two-at-a-time punch-pairing loops. -/
theorem twoStepInduction {α : Type} {P : List α → Prop}
    (h0 : P []) (h1 : ∀ a, P [a]) (h2 : ∀ a b rest, P rest → P (a :: b :: rest)) :
    ∀ l, P l := by
  have key : ∀ l, P l ∧ ∀ a, P (a :: l) := by
    intro l
    induction l with
    | nil => exact ⟨h0, h1⟩
    | cons b rest ih => exact ⟨ih.2 b, fun a => h2 a b rest ih.1⟩
  exact fun l => (key l).1

/-! ## Claim theorems -/

/-- C1: `calculate_duration` returns `exit − entry` when `exit ≥ entry`
(for either midnight policy), `(1440 − entry) + exit` when `exit < entry`
and midnight spanning is allowed, and `0` when it is forbidden; for entry
08:50 and exit 00:01 with spanning allowed it returns 911 minutes. -/
theorem duration_cases_and_midnight_scenario :
    (∀ (entry_time exit_time : WallTime) (allow : Bool),
      (time_to_minutes entry_time ≤ time_to_minutes exit_time →
        calculate_duration allow entry_time exit_time =
          time_to_minutes exit_time - time_to_minutes entry_time) ∧
      (time_to_minutes exit_time < time_to_minutes entry_time →
        calculate_duration true entry_time exit_time =
          1440 - time_to_minutes entry_time + time_to_minutes exit_time ∧
        calculate_duration false entry_time exit_time = 0)) ∧
    calculate_duration true (wt 8 50) (wt 0 1) = 911 := by
  refine ⟨fun entry_time exit_time allow => ⟨fun h => ?_, fun h => ⟨?_, ?_⟩⟩, by decide⟩ <;>
    · simp only [calculate_duration]
      split_ifs <;> first | omega | simp_all

theorem duration_cases_and_midnight_scenario_witness :
    time_to_minutes (wt 0 1) < time_to_minutes (wt 8 50) ∧
    calculate_duration true (wt 8 50) (wt 0 1) =
      1440 - time_to_minutes (wt 8 50) + time_to_minutes (wt 0 1) :=
  ⟨by decide,
   ((duration_cases_and_midnight_scenario.1 (wt 8 50) (wt 0 1) true).2 (by decide)).1⟩

/-- C6: for distinct wall times, the allowed-midnight durations of a pair
and of the swapped pair always sum to 1440 minutes. -/
theorem duration_complement_law (entry_time exit_time : WallTime)
    (h : entry_time ≠ exit_time) :
    calculate_duration true entry_time exit_time +
      calculate_duration true exit_time entry_time = 1440 := by
  have hne : time_to_minutes entry_time ≠ time_to_minutes exit_time :=
    fun hc => h (time_to_minutes_injective hc)
  simp only [calculate_duration]
  split_ifs <;> omega

theorem duration_complement_law_witness :
    (wt 8 50) ≠ (wt 0 1) ∧
    calculate_duration true (wt 8 50) (wt 0 1) +
      calculate_duration true (wt 0 1) (wt 8 50) = 1440 :=
  ⟨by decide, duration_complement_law (wt 8 50) (wt 0 1) (by decide)⟩

/-- C7 counterexample: for entry 09:05 and exit 18:00 under the `Shift`
policy and `Cont Worked` rules, the employee arrived late, the un-snapped
duration is 535 minutes, yet `apply_grace_time` returns 540 — grace
snapping EXCEEDS the un-snapped worked minutes, refuting the claim that
it never does. -/
theorem grace_exceeds_unsnapped_counterexample :
    time_to_minutes shiftShift.begin_time < time_to_minutes (wt 9 5) ∧
    calculate_duration true (wt 9 5) (wt 18 0) = 535 ∧
    apply_grace_time (wt 9 5) (wt 18 0) shiftShift contWorked = 540 ∧
    ¬ apply_grace_time (wt 9 5) (wt 18 0) shiftShift contWorked ≤
        calculate_duration true (wt 9 5) (wt 18 0) := by
  refine ⟨by decide, by decide, by decide, by decide⟩

/-- C7 (amended): for every punch pair where the employee arrived late or
left early, the grace-snapped worked minutes returned by
`apply_grace_time` are never LESS than the un-snapped worked minutes for
that pair — grace only forgives (adds credited time), never penalizes. -/
theorem grace_never_decreases (entry_time exit_time : WallTime)
    (shift_config : ShiftConfig) (rules : CategoryRules)
    (_late_or_early : time_to_minutes shift_config.begin_time < time_to_minutes entry_time ∨
         normExitM entry_time exit_time < normShiftEndM shift_config) :
    calculate_duration true entry_time exit_time ≤
      apply_grace_time entry_time exit_time shift_config rules := by
  simp only [calculate_duration, apply_grace_time, normExitM, normShiftEndM,
    snapEntry, snapExit] at *
  split_ifs at * <;> omega

theorem grace_never_decreases_witness :
    time_to_minutes shiftShift.begin_time < time_to_minutes (wt 9 5) ∧
    calculate_duration true (wt 9 5) (wt 18 0) ≤
      apply_grace_time (wt 9 5) (wt 18 0) shiftShift contWorked :=
  ⟨by decide,
   grace_never_decreases (wt 9 5) (wt 18 0) shiftShift contWorked (Or.inl (by decide))⟩

/-- C2: on ordered break windows, `deduct_breaks` equals the sum of
`max(0, min(breakEnd, exit) − max(breakStart, entry))` over all windows
(after normalizing the exit onto the unwrapped timeline), each window
counted in full; for entry 20:02 and exit 20:36 with break 20:30-21:00
the overlap is 6 minutes and the net duration is 28 minutes. -/
theorem break_overlap_formula :
    (∀ (entry_time exit_time : WallTime) (breaks : List (WallTime × WallTime)),
      (∀ b ∈ breaks, time_to_minutes b.1 < time_to_minutes b.2) →
      deduct_breaks entry_time exit_time breaks =
        (breaks.map fun b =>
          max 0 (min (time_to_minutes b.2) (normExitM entry_time exit_time) -
                 max (time_to_minutes b.1) (time_to_minutes entry_time))).sum) ∧
    deduct_breaks (wt 20 2) (wt 20 36) [(wt 20 30, wt 21 0)] = 6 ∧
    calculate_duration true (wt 20 2) (wt 20 36) -
      deduct_breaks (wt 20 2) (wt 20 36) [(wt 20 30, wt 21 0)] = 28 := by
  refine ⟨?_, by decide, by decide⟩
  intro entry_time exit_time breaks
  unfold deduct_breaks
  induction breaks with
  | nil => intro _; simp [deductMins]
  | cons b rest ih =>
      intro hb
      simp only [deductMins, List.map_cons, List.sum_cons]
      rw [deductOne_eq_overlap _ _ _ _ (le_of_lt (hb b (List.mem_cons_self _ _))),
        ih fun b' hb' => hb b' (List.mem_cons_of_mem _ hb')]

theorem break_overlap_formula_witness :
    (∀ b ∈ [(wt 20 30, wt 21 0)], time_to_minutes b.1 < time_to_minutes b.2) ∧
    deduct_breaks (wt 20 2) (wt 20 36) [(wt 20 30, wt 21 0)] =
      ([(wt 20 30, wt 21 0)].map fun b =>
        max 0 (min (time_to_minutes b.2) (normExitM (wt 20 2) (wt 20 36)) -
               max (time_to_minutes b.1) (time_to_minutes (wt 20 2)))).sum :=
  ⟨by decide, break_overlap_formula.1 (wt 20 2) (wt 20 36) [(wt 20 30, wt 21 0)] (by decide)⟩

/-- C8: for a fixed list of ordered break windows, the break-overlap sum
is monotone in the work interval on the unwrapped timeline — widening the
interval never decreases the total deduction.  The second conjunct ties
`deduct_breaks` to the unwrapped-timeline computation `deductMins`. -/
theorem break_overlap_monotone :
    (∀ (breaks : List (WallTime × WallTime)),
      (∀ b ∈ breaks, time_to_minutes b.1 < time_to_minutes b.2) →
      ∀ e1 x1 e2 x2 : Int, e2 ≤ e1 → x1 ≤ x2 →
        deductMins e1 x1 breaks ≤ deductMins e2 x2 breaks) ∧
    (∀ (entry_time exit_time : WallTime) (breaks : List (WallTime × WallTime)),
      deduct_breaks entry_time exit_time breaks =
        deductMins (time_to_minutes entry_time) (normExitM entry_time exit_time) breaks) := by
  refine ⟨fun breaks => ?_, fun _ _ _ => rfl⟩
  induction breaks with
  | nil => intro _ e1 x1 e2 x2 _ _; simp [deductMins]
  | cons b rest ih =>
      intro hb e1 x1 e2 x2 he hx
      simp only [deductMins]
      have h1 := deductOne_eq_overlap e1 x1 (time_to_minutes b.1) (time_to_minutes b.2)
        (le_of_lt (hb b (List.mem_cons_self _ _)))
      have h2 := deductOne_eq_overlap e2 x2 (time_to_minutes b.1) (time_to_minutes b.2)
        (le_of_lt (hb b (List.mem_cons_self _ _)))
      have h3 := ih (fun b' hb' => hb b' (List.mem_cons_of_mem _ hb')) e1 x1 e2 x2 he hx
      omega

/-- Exhaustive behaviour of the `parse_breaks` token loop: success yields
exactly the parsed pair of every token, failure pinpoints a malformed
token. -/
theorem parseBreaksGo_spec : ∀ toks : List String,
    match parseBreaksGo toks with
    | .ok l => l = toks.map tokenPair ∧ ∀ t ∈ toks, wellFormedTok t
    | .error _ => ∃ t ∈ toks, ¬ wellFormedTok t := by
  intro toks
  induction toks with
  | nil => simp [parseBreaksGo]
  | cons period rest ih =>
    by_cases hdash : '-' ∈ period.toList
    · rw [parseBreaksGo, if_pos hdash]
      cases hsplit : period.splitOn "-" with
      | nil =>
        simp only []
        exact ⟨period, List.mem_cons_self _ _, fun hwf => by
          have h2 := hwf.2
          rw [hsplit] at h2
          exact h2⟩
      | cons p1 tl =>
        cases tl with
        | nil =>
          simp only []
          exact ⟨period, List.mem_cons_self _ _, fun hwf => by
            have h2 := hwf.2
            rw [hsplit] at h2
            exact h2⟩
        | cons p2 tl2 =>
          cases tl2 with
          | nil =>
            cases hp1 : parseTime p1.trim with
            | none =>
              simp only [hp1]
              exact ⟨period, List.mem_cons_self _ _, fun hwf => by
                have h2 := hwf.2
                rw [hsplit] at h2
                simp [hp1] at h2⟩
            | some st =>
              cases hp2 : parseTime p2.trim with
              | none =>
                simp only [hp1, hp2]
                exact ⟨period, List.mem_cons_self _ _, fun hwf => by
                  have h2 := hwf.2
                  rw [hsplit] at h2
                  simp [hp1, hp2] at h2⟩
              | some en =>
                cases hrest : parseBreaksGo rest with
                | ok l =>
                  rw [hrest] at ih
                  simp only [hp1, hp2, hrest, Except.map]
                  refine ⟨?_, ?_⟩
                  · have htp : tokenPair period = (st, en) := by
                      simp [tokenPair, hsplit, hp1, hp2]
                    simp [htp, ih.1]
                  · intro t ht
                    rcases List.mem_cons.mp ht with h | h
                    · subst h
                      refine ⟨hdash, ?_⟩
                      rw [hsplit]
                      simp [hp1, hp2]
                    · exact ih.2 t h
                | error e =>
                  rw [hrest] at ih
                  simp only [hp1, hp2, hrest, Except.map]
                  obtain ⟨t, ht, hnwf⟩ := ih
                  exact ⟨t, List.mem_cons_of_mem _ ht, hnwf⟩
          | cons p3 tl3 =>
            simp only []
            exact ⟨period, List.mem_cons_self _ _, fun hwf => by
              have h2 := hwf.2
              rw [hsplit] at h2
              exact h2⟩
    · rw [parseBreaksGo, if_neg hdash]
      exact ⟨period, List.mem_cons_self _ _, fun hwf => hdash hwf.1⟩

/-- C9: `parse_breaks` either returns one `(start, end)` pair per
comma-separated token — all tokens well formed — or fails the whole parse
with an error, which happens exactly when some token is malformed
(missing dash, wrong field count, or unparsable time); it never silently
skips a malformed token. -/
theorem parse_breaks_all_or_error (breaks_str : String) :
    match parse_breaks breaks_str with
    | .ok l => l = (breakTokens breaks_str).map tokenPair ∧
               ∀ t ∈ breakTokens breaks_str, wellFormedTok t
    | .error _ => ∃ t ∈ breakTokens breaks_str, ¬ wellFormedTok t := by
  by_cases h : breaks_str.trim = ""
  · simp [parse_breaks, breakTokens, h]
  · simp only [parse_breaks, breakTokens, if_neg h]
    exact parseBreaksGo_spec _

/-- C3 counterexample: the boundary is 07:15 (435 minutes), and a Day-2
punch at exactly 07:15 — minutes-since-midnight EQUAL to the boundary —
is NOT migrated and no cross-midnight flag is reported, refuting the
claim that punches with minutes ≤ B migrate. -/
theorem cross_midnight_boundary_counterexample :
    time_to_minutes (wt 7 15) ≤ time_to_minutes midnightBoundary ∧
    detect_cross_midnight_shift [wt 21 0] [wt 7 15] = ([wt 21 0], [wt 7 15], none) :=
  ⟨by decide, rfl⟩

/-- C3 (amended: the migrated punches are those STRICTLY before the
boundary): with both days non-empty, exactly the Day-2 punches with
minutes-since-midnight < B (B = 07:15 = 435) are appended to Day 1 in
their relative order and removed from Day 2, with a flag carrying the
migrated list reported whenever at least one punch moved; with either
day empty both lists are returned unchanged with no flag; Day-2 punches
[00:01, 00:01, 06:30] all migrate, Day 2 becomes empty, the flag is set. -/
theorem cross_midnight_migration (day1_punches day2_punches : List WallTime) :
    time_to_minutes midnightBoundary = 435 ∧
    ((day1_punches = [] ∨ day2_punches = []) →
      detect_cross_midnight_shift day1_punches day2_punches =
        (day1_punches, day2_punches, none)) ∧
    (day1_punches ≠ [] → day2_punches ≠ [] →
      ((day2_punches.filter fun p => time_to_minutes p < time_to_minutes midnightBoundary) = [] →
        detect_cross_midnight_shift day1_punches day2_punches =
          (day1_punches, day2_punches, none)) ∧
      ((day2_punches.filter fun p => time_to_minutes p < time_to_minutes midnightBoundary) ≠ [] →
        detect_cross_midnight_shift day1_punches day2_punches =
          (day1_punches ++
             day2_punches.filter fun p => time_to_minutes p < time_to_minutes midnightBoundary,
           day2_punches.filter fun p => ¬ time_to_minutes p < time_to_minutes midnightBoundary,
           some { early_morning_punches :=
                    day2_punches.filter fun p =>
                      time_to_minutes p < time_to_minutes midnightBoundary
                  is_cross_midnight := true
                  shifted_to_day1 := true }))) ∧
    detect_cross_midnight_shift [wt 21 0] [wt 0 1, wt 0 1, wt 6 30] =
      ([wt 21 0, wt 0 1, wt 0 1, wt 6 30], [],
       some { early_morning_punches := [wt 0 1, wt 0 1, wt 6 30]
              is_cross_midnight := true
              shifted_to_day1 := true }) := by
  have hempty : ∀ l : List WallTime, l.isEmpty = true ↔ l = [] := fun l => by
    cases l <;> simp
  refine ⟨by decide, ?_, ?_, rfl⟩
  · rintro (h | h) <;> subst h <;> simp [detect_cross_midnight_shift]
  · intro h1 h2
    have e1 : day1_punches.isEmpty = false := by
      cases hc : day1_punches.isEmpty
      · rfl
      · exact absurd ((hempty _).mp hc) h1
    have e2 : day2_punches.isEmpty = false := by
      cases hc : day2_punches.isEmpty
      · rfl
      · exact absurd ((hempty _).mp hc) h2
    constructor
    · intro hfil
      simp [detect_cross_midnight_shift, e1, e2, hfil]
    · intro hfil
      have efil : ((day2_punches.filter fun p =>
          time_to_minutes p < time_to_minutes midnightBoundary).isEmpty) = false := by
        cases hc : (day2_punches.filter fun p =>
            time_to_minutes p < time_to_minutes midnightBoundary).isEmpty
        · rfl
        · exact absurd ((hempty _).mp hc) hfil
      simp [detect_cross_midnight_shift, e1, e2, efil]

theorem cross_midnight_migration_witness :
    ([wt 21 0] : List WallTime) ≠ [] ∧ ([wt 0 1, wt 6 30] : List WallTime) ≠ [] ∧
    (([wt 0 1, wt 6 30] : List WallTime).filter fun p =>
        time_to_minutes p < time_to_minutes midnightBoundary) ≠ [] ∧
    detect_cross_midnight_shift [wt 21 0] [wt 0 1, wt 6 30] =
      ([wt 21 0] ++
         ([wt 0 1, wt 6 30] : List WallTime).filter (fun p =>
           time_to_minutes p < time_to_minutes midnightBoundary),
       ([wt 0 1, wt 6 30] : List WallTime).filter (fun p =>
         ¬ time_to_minutes p < time_to_minutes midnightBoundary),
       some { early_morning_punches :=
                ([wt 0 1, wt 6 30] : List WallTime).filter fun p =>
                  time_to_minutes p < time_to_minutes midnightBoundary
              is_cross_midnight := true
              shifted_to_day1 := true }) :=
  ⟨by decide, by decide, by decide,
   (((cross_midnight_migration [wt 21 0] [wt 0 1, wt 6 30]).2.2.1
       (by decide) (by decide)).2 (by decide))⟩

theorem break_overlap_monotone_witness :
    (∀ b ∈ [(wt 10 0, wt 11 0)], time_to_minutes b.1 < time_to_minutes b.2) ∧
    (600 : Int) ≤ 650 ∧ (590 : Int) ≤ 600 ∧
    deductMins 600 650 [(wt 10 0, wt 11 0)] ≤ deductMins 590 700 [(wt 10 0, wt 11 0)] :=
  ⟨by decide, by decide, by decide,
   break_overlap_monotone.1 [(wt 10 0, wt 11 0)] (by decide) 600 650 590 700
     (by decide) (by decide)⟩


/-- Under the `Shift` break set, the break deduction computed at the
grace-snapped boundaries coincides with the one computed at the original
boundaries: the four configured windows lie outside the snap ranges. -/
theorem deduct_snap_invariant (e xn : Int) (he : e ≤ xn) :
    deductMins (snapEntry e (time_to_minutes shiftShift.begin_time) contWorked.grace_late_coming)
        (snapExit xn (normShiftEndM shiftShift) contWorked.grace_early_going)
        shiftShift.breaks =
      deductMins e xn shiftShift.breaks := by
  have hss : time_to_minutes shiftShift.begin_time = 540 := by decide
  have hse : normShiftEndM shiftShift = 1230 := by decide
  have hgl : contWorked.grace_late_coming = 10 := by decide
  have hge : contWorked.grace_early_going = 10 := by decide
  have L1 : ∀ E X : Int, deductOne E X 645 660 = max 0 (min 660 X - max 645 E) :=
    fun E X => deductOne_eq_overlap E X 645 660 (by norm_num)
  have L2 : ∀ E X : Int, deductOne E X 780 810 = max 0 (min 810 X - max 780 E) :=
    fun E X => deductOne_eq_overlap E X 780 810 (by norm_num)
  have L3 : ∀ E X : Int, deductOne E X 945 960 = max 0 (min 960 X - max 945 E) :=
    fun E X => deductOne_eq_overlap E X 945 960 (by norm_num)
  have L4 : ∀ E X : Int, deductOne E X 1230 1260 = max 0 (min 1260 X - max 1230 E) :=
    fun E X => deductOne_eq_overlap E X 1230 1260 (by norm_num)
  have hb1 : time_to_minutes (wt 10 45) = 645 := by decide
  have hb2 : time_to_minutes (wt 11 0) = 660 := by decide
  have hb3 : time_to_minutes (wt 13 0) = 780 := by decide
  have hb4 : time_to_minutes (wt 13 30) = 810 := by decide
  have hb5 : time_to_minutes (wt 15 45) = 945 := by decide
  have hb6 : time_to_minutes (wt 16 0) = 960 := by decide
  have hb7 : time_to_minutes (wt 20 30) = 1230 := by decide
  have hb8 : time_to_minutes (wt 21 0) = 1260 := by decide
  rw [hss, hse, hgl, hge]
  simp only [shiftShift, deductMins, hb1, hb2, hb3, hb4, hb5, hb6, hb7, hb8, L1, L2, L3, L4]
  simp only [snapEntry, snapExit]
  split_ifs <;> omega

/-- C4: whenever grace snapping changes the entry or exit boundary of a
pair processed by `calculate_working_hours`, the pair's final net
duration equals the grace-adjusted span minus the break overlap computed
on the snapped boundaries — so a break window inside the grace-adjusted
span is deducted from it. -/
theorem grace_rerun_break_overlap (entry_time exit_time : WallTime)
    (hchanged :
      snapEntry (time_to_minutes entry_time) (time_to_minutes shiftShift.begin_time)
          contWorked.grace_late_coming ≠ time_to_minutes entry_time ∨
      snapExit (normExitM entry_time exit_time) (normShiftEndM shiftShift)
          contWorked.grace_early_going ≠ normExitM entry_time exit_time) :
    pairNet false (entry_time, exit_time) =
      apply_grace_time entry_time exit_time shiftShift contWorked -
        deductMins
          (snapEntry (time_to_minutes entry_time) (time_to_minutes shiftShift.begin_time)
            contWorked.grace_late_coming)
          (snapExit (normExitM entry_time exit_time) (normShiftEndM shiftShift)
            contWorked.grace_early_going)
          shiftShift.breaks := by
  have he : time_to_minutes entry_time ≤ normExitM entry_time exit_time :=
    normExitM_ge_entry entry_time exit_time
  have hss : time_to_minutes shiftShift.begin_time = 540 := by decide
  have hse : normShiftEndM shiftShift = 1230 := by decide
  have hgl : contWorked.grace_late_coming = 10 := by decide
  have hge : contWorked.grace_early_going = 10 := by decide
  have hgpos : 0 < apply_grace_time entry_time exit_time shiftShift contWorked := by
    rw [apply_grace_time]
    rw [hss, hse, hgl, hge] at hchanged ⊢
    simp only [snapEntry, snapExit] at hchanged ⊢
    split_ifs at hchanged ⊢ <;> omega
  rw [show pairNet false (entry_time, exit_time) =
        (if 0 < apply_grace_time entry_time exit_time shiftShift contWorked then
          apply_grace_time entry_time exit_time shiftShift contWorked -
            deduct_breaks entry_time exit_time shiftShift.breaks
        else
          calculate_duration contWorked.allow_midnight_shift entry_time exit_time -
            deduct_breaks entry_time exit_time shiftShift.breaks) from rfl]
  rw [if_pos hgpos]
  rw [show deduct_breaks entry_time exit_time shiftShift.breaks =
        deductMins (time_to_minutes entry_time) (normExitM entry_time exit_time)
          shiftShift.breaks from rfl]
  rw [deduct_snap_invariant _ _ he]

theorem grace_rerun_break_overlap_witness :
    snapEntry (time_to_minutes (wt 9 5)) (time_to_minutes shiftShift.begin_time)
        contWorked.grace_late_coming ≠ time_to_minutes (wt 9 5) ∧
    pairNet false (wt 9 5, wt 18 0) =
      apply_grace_time (wt 9 5) (wt 18 0) shiftShift contWorked -
        deductMins
          (snapEntry (time_to_minutes (wt 9 5)) (time_to_minutes shiftShift.begin_time)
            contWorked.grace_late_coming)
          (snapExit (normExitM (wt 9 5) (wt 18 0)) (normShiftEndM shiftShift)
            contWorked.grace_early_going)
          shiftShift.breaks :=
  ⟨by decide, grace_rerun_break_overlap (wt 9 5) (wt 18 0) (Or.inl (by decide))⟩

/-- The pair rows built by `analyze_punch_pairs` are exactly the
positional pairs (0,1), (2,3), … of the deduplicated sequence. -/
theorem buildPairs_map_entry_exit (breaks : List (WallTime × WallTime)) :
    ∀ l : List WallTime, ∀ k : Nat,
      (buildPairs breaks k l).map (fun pi => (pi.entry, pi.exit)) = pairsOf l := by
  refine twoStepInduction ?_ ?_ ?_
  · intro k; rfl
  · intro a k; rfl
  · intro a b rest ih k
    simp only [buildPairs, pairsOf, List.map_cons, List.cons.injEq]
    exact ⟨trivial, ih (k + 1)⟩

/-- `analyze_punch_pairs` builds `⌊n/2⌋` complete pairs from `n`
deduplicated punches. -/
theorem buildPairs_length (breaks : List (WallTime × WallTime)) :
    ∀ l : List WallTime, ∀ k : Nat,
      (buildPairs breaks k l).length = l.length / 2 := by
  refine twoStepInduction ?_ ?_ ?_
  · intro k; rfl
  · intro a k; simp [buildPairs]
  · intro a b rest ih k
    simp only [buildPairs, List.length_cons, ih (k + 1)]
    omega

/-- The running total of `analyze_punch_pairs` is the sum of the
strictly positive net durations of the complete pairs. -/
theorem sumPosFinals_buildPairs (breaks : List (WallTime × WallTime)) :
    ∀ l : List WallTime, ∀ k : Nat,
      sumPosFinals (buildPairs breaks k l) =
        (((pairsOf l).map fun p =>
            calculate_duration contWorked.allow_midnight_shift p.1 p.2 -
              deduct_breaks p.1 p.2 breaks).filter fun v => 0 < v).sum := by
  refine twoStepInduction ?_ ?_ ?_
  · intro k; rfl
  · intro a k; rfl
  · intro a b rest ih k
    simp only [buildPairs, sumPosFinals, pairsOf, List.map_cons, List.filter_cons, ih (k + 1)]
    split_ifs <;> simp_all <;> omega

/-- The positive-only accumulation of `analyze_punch_pairs` never goes
negative. -/
theorem sumPosFinals_nonneg : ∀ l : List PairInfo, 0 ≤ sumPosFinals l := by
  intro l
  induction l with
  | nil => simp [sumPosFinals]
  | cons pi rest ih =>
      simp only [sumPosFinals]
      split_ifs <;> omega

/-- The running total of `calculate_working_hours` is the sum of the
strictly positive per-pair net durations. -/
theorem sumPosNet_eq (use_reference : Bool) :
    ∀ l : List (WallTime × WallTime),
      sumPosNet use_reference l =
        ((l.map (pairNet use_reference)).filter fun v => 0 < v).sum := by
  intro l
  induction l with
  | nil => rfl
  | cons p rest ih =>
      simp only [sumPosNet, List.map_cons, List.filter_cons, ih]
      split_ifs <;> simp_all <;> omega

/-- The positive-only accumulation of `calculate_working_hours` never
goes negative. -/
theorem sumPosNet_nonneg (use_reference : Bool) :
    ∀ l : List (WallTime × WallTime), 0 ≤ sumPosNet use_reference l := by
  intro l
  induction l with
  | nil => simp [sumPosNet]
  | cons p rest ih =>
      simp only [sumPosNet]
      split_ifs <;> omega

/-- C5: on a deduplicated punch sequence of odd length,
`analyze_punch_pairs` pairs positions (0,1), (2,3), …, reports the final
element as an unpaired punch at its 1-based position, infers its
direction from the parity of the complete-pair count (even ⇒ entry,
odd ⇒ exit), labels it as an unverified heuristic anomaly
("Missing exit/entry punch", unaccounted minutes "Unknown"), and counts
it for exactly zero minutes: the total is the sum over complete pairs
only. -/
theorem unpaired_punch_report (punches : List WallTime)
    (custom_breaks : Option (List (WallTime × WallTime)))
    (hodd : (dedupPunches punches).length % 2 = 1) :
    (analyze_punch_pairs punches custom_breaks).pairs.map (fun pi => (pi.entry, pi.exit)) =
      pairsOf (dedupPunches punches) ∧
    (analyze_punch_pairs punches custom_breaks).complete_pairs =
      (dedupPunches punches).length / 2 ∧
    (analyze_punch_pairs punches custom_breaks).unpaired.map (fun u => u.punch) =
      (dedupPunches punches).getLast? ∧
    (analyze_punch_pairs punches custom_breaks).unpaired.map (fun u => u.position) =
      some (dedupPunches punches).length ∧
    (analyze_punch_pairs punches custom_breaks).unpaired.map (fun u => u.likely_type) =
      some (if ((dedupPunches punches).length / 2) % 2 = 0 then "Clock IN (entry)"
            else "Clock OUT (exit)") ∧
    (analyze_punch_pairs punches custom_breaks).unpaired.map (fun u => u.status) =
      some "Missing exit/entry punch" ∧
    (analyze_punch_pairs punches custom_breaks).unpaired.map (fun u => u.unaccounted_mins) =
      some "Unknown - cannot calculate without exit/entry" ∧
    (analyze_punch_pairs punches custom_breaks).total_minutes =
      (((pairsOf (dedupPunches punches)).map fun p =>
          calculate_duration contWorked.allow_midnight_shift p.1 p.2 -
            deduct_breaks p.1 p.2 (custom_breaks.getD shiftShift.breaks)).filter
        fun v => 0 < v).sum := by
  have hne : punches ≠ [] := by
    intro h
    rw [h] at hodd
    simp [dedupPunches, dedupGo] at hodd
  have hempty : punches.isEmpty = false := by
    cases punches with
    | nil => exact absurd rfl hne
    | cons a l => rfl
  have hdne : dedupPunches punches ≠ [] := by
    intro h
    rw [h] at hodd
    simp at hodd
  obtain ⟨p, hlast⟩ : ∃ p, (dedupPunches punches).getLast? = some p := by
    cases hl : (dedupPunches punches).getLast? with
    | none => exact absurd (List.getLast?_eq_none_iff.mp hl) hdne
    | some q => exact ⟨q, rfl⟩
  simp only [analyze_punch_pairs, hempty, Bool.false_eq_true, if_false, hodd, if_pos,
    buildPairs_length, hlast, Option.map_some']
  refine ⟨buildPairs_map_entry_exit _ _ _, ?_, ?_, ?_, ?_, ?_, ?_,
    sumPosFinals_buildPairs _ _ _⟩ <;> simp [hlast]

theorem unpaired_punch_report_witness :
    (dedupPunches [wt 9 0, wt 10 0, wt 11 0]).length % 2 = 1 ∧
    (analyze_punch_pairs [wt 9 0, wt 10 0, wt 11 0] none).unpaired.map (fun u => u.punch) =
      (dedupPunches [wt 9 0, wt 10 0, wt 11 0]).getLast? :=
  ⟨by decide, (unpaired_punch_report [wt 9 0, wt 10 0, wt 11 0] none (by decide)).2.2.1⟩

/-- C10: both aggregated totals — `calculate_working_hours` and the
`total_minutes` of `analyze_punch_pairs` — equal the sum over only the
pairs whose net duration is strictly positive; zero or negative pairs
contribute nothing, and the returned total is always ≥ 0. -/
theorem total_minutes_sum_positive_pairs :
    (∀ (punches : List WallTime) (use_reference : Bool),
      calculate_working_hours punches use_reference =
        (((pairsOf (dedupPunches punches)).map (pairNet use_reference)).filter
          fun v => 0 < v).sum ∧
      0 ≤ calculate_working_hours punches use_reference) ∧
    (∀ (punches : List WallTime) (custom_breaks : Option (List (WallTime × WallTime))),
      (analyze_punch_pairs punches custom_breaks).total_minutes =
        (((pairsOf (dedupPunches punches)).map fun p =>
            calculate_duration contWorked.allow_midnight_shift p.1 p.2 -
              deduct_breaks p.1 p.2 (custom_breaks.getD shiftShift.breaks)).filter
          fun v => 0 < v).sum ∧
      0 ≤ (analyze_punch_pairs punches custom_breaks).total_minutes) := by
  have hsum : ∀ (u : Bool) (l : List (WallTime × WallTime)),
      0 ≤ ((l.map (pairNet u)).filter fun v => 0 < v).sum := by
    intro u l
    rw [← sumPosNet_eq]
    exact sumPosNet_nonneg u l
  constructor
  · intro punches use_reference
    by_cases h2 : punches.length < 2
    · match punches, h2 with
      | [], _ =>
        exact ⟨by simp [calculate_working_hours, dedupPunches, dedupGo, pairsOf], by
          simp [calculate_working_hours]⟩
      | [a], _ =>
        exact ⟨by simp [calculate_working_hours, dedupPunches, dedupGo, pairsOf], by
          simp [calculate_working_hours]⟩
    · rw [calculate_working_hours, if_neg h2]
      by_cases hd : (dedupPunches punches).length < 2
      · rw [if_pos hd]
        have : pairsOf (dedupPunches punches) = [] := by
          match hm : dedupPunches punches, hd with
          | [], _ => rfl
          | [a], _ => rfl
        rw [this]
        exact ⟨rfl, le_refl 0⟩
      · rw [if_neg hd]
        have hpos := sumPosNet_nonneg use_reference (pairsOf (dedupPunches punches))
        constructor
        · rw [max_eq_right hpos, sumPosNet_eq]
        · exact le_max_left 0 _
  · intro punches custom_breaks
    by_cases hempty : punches.isEmpty
    · have : punches = [] := by
        cases punches with
        | nil => rfl
        | cons a l => simp at hempty
      subst this
      exact ⟨by simp [analyze_punch_pairs, dedupPunches, dedupGo, pairsOf], by
        simp [analyze_punch_pairs]⟩
    · have he : punches.isEmpty = false := by
        cases hc : punches.isEmpty
        · rfl
        · exact absurd hc hempty
      simp only [analyze_punch_pairs, he, Bool.false_eq_true, if_false]
      exact ⟨sumPosFinals_buildPairs _ _ _, sumPosFinals_nonneg _⟩
